import Mathlib

/-!
Verification of the tigo pixel-surface drawing core.

The Go package `tigo` (src/tigo.go) is a binding over the tigr graphics
library.  The Go file itself defines the `Pixel` struct and the colour
helpers `RGB`/`RGBA`, and forwards every drawing call (`Get`, `Plot`,
`Clear`, `Fill`, `Rect`, `Line`, `Blit`, `BlitAlpha`, `BlitTint`) to the
C implementation, which is not part of the repository sources.  The
drawing semantics are therefore modelled from the specification
(spec.md §3–§4), while `Pixel`, `RGB` and `RGBA` are translated directly
from src/tigo.go.
-/

namespace Tigo

/-- Pixel struct, translated from src/tigo.go: four 8-bit channels,
declared in field order B, G, R, A.  Channels are modelled as `Nat`
(the Go code only stores them, never computes with them). -/
structure Pixel where
  B : Nat
  G : Nat
  R : Nat
  A : Nat
deriving DecidableEq, Repr

/-- RGB helper, translated from src/tigo.go lines 120–128:
returns the pixel with the given R, G, B and alpha `0xff`. -/
def RGB (r g b : Nat) : Pixel :=
  { R := r, G := g, B := b, A := 0xff }

/-- RGBA helper, translated from src/tigo.go lines 130–138:
returns the pixel with the four given channels. -/
def RGBA (r g b a : Nat) : Pixel :=
  { R := r, G := g, B := b, A := a }

/-- Modelled from the spec: the spec's PixelSurface (§3), standing for the
tigr bitmap behind the Go `Bitmap` wrapper (whose pixel buffer lives in the
C library, absent from the sources).  A contiguous row-major buffer of
`width * height` pixels with top-left origin. -/
structure Surface where
  width : Nat
  height : Nat
  pixels : List Pixel
deriving DecidableEq, Repr

/-- The spec's data-model invariant (§3): the buffer length always equals
`width * height`. -/
def Surface.Wf (s : Surface) : Prop :=
  s.pixels.length = s.width * s.height

instance (s : Surface) : Decidable s.Wf := by
  unfold Surface.Wf; infer_instance

/-- A coordinate `(x, y)` is valid iff `0 ≤ x < width` and `0 ≤ y < height`
(spec §3). -/
def Surface.inB (s : Surface) (x y : Int) : Prop :=
  0 ≤ x ∧ x < s.width ∧ 0 ≤ y ∧ y < s.height

instance (s : Surface) (x y : Int) : Decidable (s.inB x y) := by
  unfold Surface.inB; infer_instance

/-- Row-major buffer index of an in-range coordinate. -/
def Surface.idx (s : Surface) (x y : Int) : Nat :=
  y.toNat * s.width + x.toNat

/-- Modelled from the spec: `Get(x, y)` (§4.1) returns the pixel at `(x,y)`;
out-of-range reads are left open by the wrapped library's contract, and the
model returns the zero pixel there. -/
def Surface.Get (s : Surface) (x y : Int) : Pixel :=
  if s.inB x y then s.pixels.getD (s.idx x y) ⟨0, 0, 0, 0⟩ else ⟨0, 0, 0, 0⟩

/-- Modelled from the spec: `Plot(x, y, color)` (§4.1) writes `color` at
`(x,y)` if in range; out-of-range writes are silently ignored. -/
def Surface.Plot (s : Surface) (x y : Int) (c : Pixel) : Surface :=
  if s.inB x y then { s with pixels := s.pixels.set (s.idx x y) c } else s

/-- Modelled from the spec: `Clear(color)` (§4.1) sets every pixel of the
surface to `color`. -/
def Surface.Clear (s : Surface) (c : Pixel) : Surface :=
  { s with pixels := s.pixels.map fun _ => c }

theorem Plot_width (s : Surface) (x y : Int) (c : Pixel) :
    (s.Plot x y c).width = s.width := by
  unfold Surface.Plot; split <;> rfl

theorem Plot_height (s : Surface) (x y : Int) (c : Pixel) :
    (s.Plot x y c).height = s.height := by
  unfold Surface.Plot; split <;> rfl

theorem Plot_Wf (s : Surface) (x y : Int) (c : Pixel) (hs : s.Wf) :
    (s.Plot x y c).Wf := by
  unfold Surface.Plot
  split
  · simpa [Surface.Wf] using hs
  · exact hs

theorem inB_Plot (s : Surface) (x y px py : Int) (c : Pixel) :
    (s.Plot x y c).inB px py ↔ s.inB px py := by
  unfold Surface.inB
  rw [Plot_width, Plot_height]

/-- The row-major index is injective on in-range coordinates. -/
theorem idx_inj (s : Surface) (x y x' y' : Int)
    (h : s.inB x y) (h' : s.inB x' y')
    (heq : s.idx x y = s.idx x' y') : x = x' ∧ y = y' := by
  obtain ⟨hx0, hxw, hy0, hyh⟩ := h
  obtain ⟨hx0', hxw', hy0', hyh'⟩ := h'
  unfold Surface.idx at heq
  have hxlt : x.toNat < s.width := by omega
  have hxlt' : x'.toNat < s.width := by omega
  have hw : 0 < s.width := by omega
  have h1 : (y.toNat * s.width + x.toNat) % s.width = x.toNat := by
    rw [Nat.mul_comm, Nat.add_comm, Nat.add_mul_mod_self_left]
    exact Nat.mod_eq_of_lt hxlt
  have h2 : (y'.toNat * s.width + x'.toNat) % s.width = x'.toNat := by
    rw [Nat.mul_comm, Nat.add_comm, Nat.add_mul_mod_self_left]
    exact Nat.mod_eq_of_lt hxlt'
  have h3 : (y.toNat * s.width + x.toNat) / s.width = y.toNat := by
    rw [Nat.mul_comm, Nat.add_comm, Nat.add_mul_div_left _ _ hw]
    simp [Nat.div_eq_of_lt hxlt]
  have h4 : (y'.toNat * s.width + x'.toNat) / s.width = y'.toNat := by
    rw [Nat.mul_comm, Nat.add_comm, Nat.add_mul_div_left _ _ hw]
    simp [Nat.div_eq_of_lt hxlt']
  have hx : x.toNat = x'.toNat := by rw [← h1, ← h2, heq]
  have hy : y.toNat = y'.toNat := by rw [← h3, ← h4, heq]
  omega

theorem idx_lt_length (s : Surface) (x y : Int) (hs : s.Wf)
    (h : s.inB x y) : s.idx x y < s.pixels.length := by
  obtain ⟨hx0, hxw, hy0, hyh⟩ := h
  unfold Surface.idx
  rw [hs]
  have hxlt : x.toNat < s.width := by omega
  have hylt : y.toNat < s.height := by omega
  calc y.toNat * s.width + x.toNat
      < y.toNat * s.width + s.width := by omega
    _ = (y.toNat + 1) * s.width := by ring
    _ ≤ s.height * s.width := Nat.mul_le_mul_right _ (by omega)
    _ = s.width * s.height := Nat.mul_comm _ _

theorem Get_Plot_same (s : Surface) (x y : Int) (c : Pixel) (hs : s.Wf)
    (h : s.inB x y) : (s.Plot x y c).Get x y = c := by
  have hlt := idx_lt_length s x y hs h
  unfold Surface.Plot Surface.Get
  rw [if_pos h]
  have hinB : (⟨s.width, s.height, s.pixels.set (s.idx x y) c⟩ : Surface).inB x y := h
  rw [if_pos hinB]
  show (s.pixels.set (s.idx x y) c).getD (s.idx x y) ⟨0, 0, 0, 0⟩ = c
  rw [List.getD_eq_getElem?_getD, List.getElem?_set_self (by simpa using hlt)]
  rfl

theorem Get_Plot_ne (s : Surface) (x y px py : Int) (c : Pixel)
    (h : ¬(px = x ∧ py = y)) : (s.Plot x y c).Get px py = s.Get px py := by
  unfold Surface.Plot
  split
  · next hxy =>
    unfold Surface.Get
    by_cases hp : s.inB px py
    · have hp' : (⟨s.width, s.height, s.pixels.set (s.idx x y) c⟩ : Surface).inB px py := hp
      rw [if_pos hp', if_pos hp]
      show (s.pixels.set (s.idx x y) c).getD (s.idx px py) ⟨0, 0, 0, 0⟩
          = s.pixels.getD (s.idx px py) ⟨0, 0, 0, 0⟩
      have hne : s.idx x y ≠ s.idx px py := by
        intro heq
        obtain ⟨hx, hy⟩ := idx_inj s x y px py hxy hp heq
        exact h ⟨hx.symm, hy.symm⟩
      rw [List.getD_eq_getElem?_getD, List.getD_eq_getElem?_getD,
        List.getElem?_set_ne hne]
    · have hp' : ¬(⟨s.width, s.height, s.pixels.set (s.idx x y) c⟩ : Surface).inB px py := hp
      rw [if_neg hp', if_neg hp]
  · rfl

/-- Enumeration of the integer points of the half-open rectangle
`[x0, x1) × [y0, y1)`, row by row. -/
def rectPoints (x0 y0 x1 y1 : Int) : List (Int × Int) :=
  (List.range (y1 - y0).toNat).flatMap fun (j : Nat) =>
    (List.range (x1 - x0).toNat).map fun (i : Nat) => (x0 + (i : Int), y0 + (j : Int))

theorem mem_rectPoints (x0 y0 x1 y1 : Int) (p : Int × Int) :
    p ∈ rectPoints x0 y0 x1 y1 ↔
      x0 ≤ p.1 ∧ p.1 < x1 ∧ y0 ≤ p.2 ∧ p.2 < y1 := by
  unfold rectPoints
  simp only [List.mem_flatMap, List.mem_map, List.mem_range]
  constructor
  · rintro ⟨j, hj, i, hi, rfl⟩
    dsimp only
    omega
  · rintro ⟨h1, h2, h3, h4⟩
    refine ⟨(p.2 - y0).toNat, by omega, (p.1 - x0).toNat, by omega, ?_⟩
    obtain ⟨a, b⟩ := p
    dsimp only at h1 h2 h3 h4 ⊢
    rw [Prod.mk.injEq]
    omega

theorem nodup_rectPoints (x0 y0 x1 y1 : Int) :
    (rectPoints x0 y0 x1 y1).Nodup := by
  unfold rectPoints
  rw [List.nodup_flatMap]
  constructor
  · intro j _
    refine (List.nodup_range _).map ?_
    intro i i' h
    have := congrArg Prod.fst h
    dsimp only at this
    omega
  · refine List.Pairwise.imp ?_ (List.nodup_range _)
    intro j j' hne
    intro p h1 h2
    simp only [List.mem_map, List.mem_range] at h1 h2
    obtain ⟨i, _, hb⟩ := h1
    obtain ⟨i', _, hb'⟩ := h2
    rw [← hb'] at hb
    have := congrArg Prod.snd hb
    dsimp only at this
    omega

/-- Result of folding position-determined plots over a list of positions:
a position in the list (and in bounds) holds its assigned value, every
other position is unchanged.  Duplicates are harmless because the value
depends only on the position. -/
theorem Get_foldl_Plot (f : Int × Int → Pixel) :
    ∀ (l : List (Int × Int)) (s : Surface), s.Wf → ∀ (p : Int × Int),
      (l.foldl (fun d q => d.Plot q.1 q.2 (f q)) s).Get p.1 p.2 =
        if p ∈ l ∧ s.inB p.1 p.2 then f p else s.Get p.1 p.2 := by
  intro l
  induction l with
  | nil => intro s _ p; simp
  | cons q l ih =>
    intro s hs p
    have hs' : (s.Plot q.1 q.2 (f q)).Wf := Plot_Wf _ _ _ _ hs
    rw [List.foldl_cons, ih _ hs' p]
    by_cases hmem : p ∈ l
    · by_cases hb : s.inB p.1 p.2
      · have hb' : (s.Plot q.1 q.2 (f q)).inB p.1 p.2 := (inB_Plot _ _ _ _ _ _).mpr hb
        rw [if_pos ⟨hmem, hb'⟩, if_pos ⟨List.mem_cons_of_mem _ hmem, hb⟩]
      · have hb' : ¬(s.Plot q.1 q.2 (f q)).inB p.1 p.2 := fun h =>
          hb ((inB_Plot _ _ _ _ _ _).mp h)
        rw [if_neg (fun h => hb' h.2), if_neg (fun h => hb h.2)]
        by_cases hpq : p.1 = q.1 ∧ p.2 = q.2
        · obtain ⟨h1, h2⟩ := hpq
          rw [h1, h2]
          unfold Surface.Plot Surface.Get
          split
          · next hq =>
            exfalso
            exact hb (by rw [← h1, ← h2] at hq; exact hq)
          · rfl
        · exact Get_Plot_ne _ _ _ _ _ _ hpq
    · have hnm : ¬(p ∈ l ∧ (s.Plot q.1 q.2 (f q)).inB p.1 p.2) := fun h => hmem h.1
      rw [if_neg hnm]
      by_cases hpq : p = q
      · subst hpq
        by_cases hb : s.inB p.1 p.2
        · rw [if_pos ⟨List.mem_cons_self _ _, hb⟩]
          exact Get_Plot_same _ _ _ _ hs hb
        · rw [if_neg (fun h => hb h.2)]
          unfold Surface.Plot
          rw [if_neg hb]
      · rw [if_neg ?_]
        · exact Get_Plot_ne _ _ _ _ _ _ fun h => hpq (Prod.ext h.1 h.2)
        · rintro ⟨hmem', hb⟩
          rcases List.mem_cons.mp hmem' with h | h
          · exact hpq h
          · exact hmem h

theorem foldl_Plot_Wf (f : Int × Int → Pixel) :
    ∀ (l : List (Int × Int)) (s : Surface), s.Wf →
      (l.foldl (fun d q => d.Plot q.1 q.2 (f q)) s).Wf := by
  intro l
  induction l with
  | nil => intro s hs; exact hs
  | cons q l ih => intro s hs; exact ih _ (Plot_Wf _ _ _ _ hs)

theorem foldl_Plot_width (f : Int × Int → Pixel) :
    ∀ (l : List (Int × Int)) (s : Surface),
      (l.foldl (fun d q => d.Plot q.1 q.2 (f q)) s).width = s.width := by
  intro l
  induction l with
  | nil => intro s; rfl
  | cons q l ih => intro s; rw [List.foldl_cons, ih, Plot_width]

theorem foldl_Plot_height (f : Int × Int → Pixel) :
    ∀ (l : List (Int × Int)) (s : Surface),
      (l.foldl (fun d q => d.Plot q.1 q.2 (f q)) s).height = s.height := by
  intro l
  induction l with
  | nil => intro s; rfl
  | cons q l ih => intro s; rw [List.foldl_cons, ih, Plot_height]

/-- Modelled from the spec: `Fill(x, y, w, h, color)` (§4.1) sets every
pixel of the half-open rectangle `[x, x+w) × [y, y+h)` to `color`,
clipped to the surface bounds.  The model clips first and then loops
over the clipped rows and columns, writing through `Plot`. -/
def Surface.Fill (s : Surface) (x y w h : Int) (c : Pixel) : Surface :=
  (rectPoints (max x 0) (max y 0) (min (x + w) s.width) (min (y + h) s.height)).foldl
    (fun d q => d.Plot q.1 q.2 c) s

/-- Modelled from the spec: `Rect(x, y, w, h, color)` (§4.1) draws the
one-pixel-wide outline of the half-open rectangle (top, bottom, left and
right edges), clipped like `Fill`; `w ≤ 0` or `h ≤ 0` draws nothing. -/
def Surface.Rect (s : Surface) (x y w h : Int) (c : Pixel) : Surface :=
  if w ≤ 0 ∨ h ≤ 0 then s
  else
    ((((s.Fill x y w 1 c).Fill x (y + h - 1) w 1 c).Fill x y 1 h c).Fill
      (x + w - 1) y 1 h c)

/-- One run of the classical integer Bresenham loop with explicit fuel:
emit the current point; stop at the target; otherwise advance `x` when
`2*err ≥ dy` and `y` when `2*err ≤ dx`, updating the error term. -/
def bres (fuel : Nat) (x y x1 y1 sx sy dx dy err : Int) : List (Int × Int) :=
  match fuel with
  | 0 => []
  | Nat.succ fuel =>
    (x, y) ::
      (if x = x1 ∧ y = y1 then []
       else
         bres fuel
           (if 2 * err ≥ dy then x + sx else x)
           (if 2 * err ≤ dx then y + sy else y)
           x1 y1 sx sy dx dy
           ((if 2 * err ≥ dy then err + dy else err) +
             (if 2 * err ≤ dx then dx else 0)))

/-- Modelled from the spec: the set of pixels visited by a standard
Bresenham rasterization of the segment from `(x0, y0)` to `(x1, y1)`
(§4.1 Line), with `dx = |x1-x0|`, `dy = -|y1-y0|`, initial error
`dx + dy` and unit steps toward the endpoint.  `dx - dy + 1` loop
iterations always suffice to reach the endpoint. -/
def bresenhamPoints (x0 y0 x1 y1 : Int) : List (Int × Int) :=
  bres (|x1 - x0| + |y1 - y0| + 1).toNat x0 y0 x1 y1
    (if x0 < x1 then 1 else -1) (if y0 < y1 then 1 else -1)
    (|x1 - x0|) (-|y1 - y0|) (|x1 - x0| - |y1 - y0|)

/-- Modelled from the spec: `Line(x0, y0, x1, y1, color)` (§4.1) plots
every pixel the Bresenham rasterization visits; out-of-bounds pixels are
individually skipped by `Plot`. -/
def Surface.Line (s : Surface) (x0 y0 x1 y1 : Int) (c : Pixel) : Surface :=
  (bresenhamPoints x0 y0 x1 y1).foldl (fun d q => d.Plot q.1 q.2 c) s

/-- The Bresenham loop reaches the endpoint: with `rx` remaining x-steps
and `ry` remaining y-steps, the invariant position `(x1 - sx*rx, y1 - sy*ry)`
and error `dx + dy - ry*dx - rx*dy`, the target `(x1, y1)` is emitted
within `rx + ry + 1` iterations. -/
theorem bres_reaches (x1 y1 sx sy dx dy : Int)
    (hsx : sx = 1 ∨ sx = -1) (hsy : sy = 1 ∨ sy = -1)
    (hdx : 0 ≤ dx) (hdy : dy ≤ 0) :
    ∀ (n : Nat) (rx ry x y err : Int),
      0 ≤ rx → rx ≤ dx → 0 ≤ ry → ry ≤ -dy →
      x = x1 - sx * rx → y = y1 - sy * ry →
      err = dx + dy - ry * dx - rx * dy →
      rx + ry < (n : Int) →
      (x1, y1) ∈ bres n x y x1 y1 sx sy dx dy err := by
  intro n
  induction n with
  | zero =>
    intro rx ry x y err h1 h2 h3 h4 hx hy herr hm
    exfalso
    omega
  | succ n ih =>
    intro rx ry x y err h1 h2 h3 h4 hx hy herr hm
    show (x1, y1) ∈ (x, y) :: _
    by_cases hstop : x = x1 ∧ y = y1
    · rw [show ((x, y) : Int × Int) = (x1, y1) by rw [hstop.1, hstop.2]]
      exact List.mem_cons_self _ _
    · rw [if_neg hstop]
      apply List.mem_cons_of_mem
      have hstop' : ¬(rx = 0 ∧ ry = 0) := by
        intro hc
        apply hstop
        rcases hsx with rfl | rfl <;> rcases hsy with rfl | rfl <;>
          exact ⟨by omega, by omega⟩
      by_cases hX : 2 * err ≥ dy <;> by_cases hY : 2 * err ≤ dx
      · -- both axes step
        rw [if_pos hX, if_pos hY, if_pos hX, if_pos hY]
        have hrx1 : 1 ≤ rx := by
          by_contra hc
          have hrx0 : rx = 0 := by omega
          have hry1 : 1 ≤ ry := by omega
          have hf : dx ≤ ry * dx := le_mul_of_one_le_left hdx hry1
          rw [hrx0] at herr
          ring_nf at herr hf
          have hdy1 : dy ≤ -1 := by omega
          omega
        have hry1 : 1 ≤ ry := by
          by_contra hc
          have hry0 : ry = 0 := by omega
          have hrx1' : 1 ≤ rx := by omega
          have hf : rx * dy ≤ dy := by nlinarith
          rw [hry0] at herr
          ring_nf at herr hf
          have hdx1 : 1 ≤ dx := by omega
          omega
        exact ih (rx - 1) (ry - 1) _ _ _ (by omega) (by omega) (by omega)
          (by omega) (by rw [hx]; ring) (by rw [hy]; ring)
          (by rw [herr]; ring) (by omega)
      · -- only x steps
        rw [if_pos hX, if_neg hY, if_pos hX, if_neg hY]
        have hrx1 : 1 ≤ rx := by
          by_contra hc
          have hrx0 : rx = 0 := by omega
          have hry1 : 1 ≤ ry := by omega
          have hf : dx ≤ ry * dx := le_mul_of_one_le_left hdx hry1
          rw [hrx0] at herr
          ring_nf at herr hf
          have hdy1 : dy ≤ -1 := by omega
          omega
        exact ih (rx - 1) ry _ _ _ (by omega) (by omega) (by omega)
          (by omega) (by rw [hx]; ring) (by rw [hy])
          (by rw [herr]; ring) (by omega)
      · -- only y steps
        rw [if_neg hX, if_pos hY, if_neg hX, if_pos hY]
        have hry1 : 1 ≤ ry := by
          by_contra hc
          have hry0 : ry = 0 := by omega
          have hrx1 : 1 ≤ rx := by omega
          have hf : rx * dy ≤ dy := by nlinarith
          rw [hry0] at herr
          ring_nf at herr hf
          omega
        exact ih rx (ry - 1) _ _ _ (by omega) (by omega) (by omega)
          (by omega) (by rw [hx]) (by rw [hy]; ring)
          (by rw [herr]; ring) (by omega)
      · exfalso
        omega

/-- A Bresenham point list always contains its start point. -/
theorem start_mem_bresenhamPoints (x0 y0 x1 y1 : Int) :
    (x0, y0) ∈ bresenhamPoints x0 y0 x1 y1 := by
  unfold bresenhamPoints
  have h1 : 0 ≤ |x1 - x0| := abs_nonneg _
  have h2 : 0 ≤ |y1 - y0| := abs_nonneg _
  rcases hn : (|x1 - x0| + |y1 - y0| + 1).toNat with _ | m
  · omega
  · exact List.mem_cons_self _ _

/-- A Bresenham point list always contains its end point. -/
theorem end_mem_bresenhamPoints (x0 y0 x1 y1 : Int) :
    (x1, y1) ∈ bresenhamPoints x0 y0 x1 y1 := by
  unfold bresenhamPoints
  have h1 : 0 ≤ |x1 - x0| := abs_nonneg _
  have h2 : 0 ≤ |y1 - y0| := abs_nonneg _
  apply bres_reaches x1 y1 _ _ (|x1 - x0|) (-|y1 - y0|)
    (by split <;> simp) (by split <;> simp)
    h1 (by omega)
    _ (|x1 - x0|) (|y1 - y0|) x0 y0 _
    h1 (le_refl _) h2 (by omega)
  · by_cases hlt : x0 < x1
    · rw [if_pos hlt, abs_of_nonneg (by omega : (0:Int) ≤ x1 - x0)]
      ring
    · rw [if_neg hlt, abs_of_nonpos (by omega : x1 - x0 ≤ 0)]
      ring
  · by_cases hlt : y0 < y1
    · rw [if_pos hlt, abs_of_nonneg (by omega : (0:Int) ≤ y1 - y0)]
      ring
    · rw [if_neg hlt, abs_of_nonpos (by omega : y1 - y0 ≤ 0)]
      ring
  · ring
  · omega

/-- Result of folding plots whose written value may read the current pixel
at the written position (`g` takes the position and the pixel standing
there).  Over a duplicate-free list of positions, a listed in-bounds
position holds `g` of its original pixel and every other position is
unchanged. -/
theorem Get_foldl_PlotWith (g : Int × Int → Pixel → Pixel) :
    ∀ (l : List (Int × Int)) (s : Surface), s.Wf → l.Nodup → ∀ (p : Int × Int),
      (l.foldl (fun d q => d.Plot q.1 q.2 (g q (d.Get q.1 q.2))) s).Get p.1 p.2 =
        if p ∈ l ∧ s.inB p.1 p.2 then g p (s.Get p.1 p.2) else s.Get p.1 p.2 := by
  intro l
  induction l with
  | nil => intro s _ _ p; simp
  | cons q l ih =>
    intro s hs hnd p
    have hs' : (s.Plot q.1 q.2 (g q (s.Get q.1 q.2))).Wf := Plot_Wf _ _ _ _ hs
    rw [List.foldl_cons, ih _ hs' (List.Nodup.of_cons hnd) p]
    by_cases hmem : p ∈ l
    · have hpq : ¬(p.1 = q.1 ∧ p.2 = q.2) := by
        intro hc
        exact (List.nodup_cons.mp hnd).1 (by rwa [Prod.ext hc.1 hc.2] at hmem)
      by_cases hb : s.inB p.1 p.2
      · have hb' : (s.Plot q.1 q.2 (g q (s.Get q.1 q.2))).inB p.1 p.2 :=
          (inB_Plot _ _ _ _ _ _).mpr hb
        rw [if_pos ⟨hmem, hb'⟩, if_pos ⟨List.mem_cons_of_mem _ hmem, hb⟩,
          Get_Plot_ne _ _ _ _ _ _ hpq]
      · have hb' : ¬(s.Plot q.1 q.2 (g q (s.Get q.1 q.2))).inB p.1 p.2 := fun h =>
          hb ((inB_Plot _ _ _ _ _ _).mp h)
        rw [if_neg (fun h => hb' h.2), if_neg (fun h => hb h.2),
          Get_Plot_ne _ _ _ _ _ _ hpq]
    · have hnm : ¬(p ∈ l ∧ (s.Plot q.1 q.2 (g q (s.Get q.1 q.2))).inB p.1 p.2) :=
        fun h => hmem h.1
      rw [if_neg hnm]
      by_cases hpq : p = q
      · subst hpq
        by_cases hb : s.inB p.1 p.2
        · rw [if_pos ⟨List.mem_cons_self _ _, hb⟩]
          exact Get_Plot_same _ _ _ _ hs hb
        · rw [if_neg (fun h => hb h.2)]
          unfold Surface.Plot
          rw [if_neg hb]
      · rw [if_neg ?_]
        · exact Get_Plot_ne _ _ _ _ _ _ fun h => hpq (Prod.ext h.1 h.2)
        · rintro ⟨hmem', hb⟩
          rcases List.mem_cons.mp hmem' with h | h
          · exact hpq h
          · exact hmem h

/-- The clipped copy region of a blit with the given arguments and surface
dimensions, as a list of destination positions: a destination position is
written iff its offset into the requested rectangle is inside `[0,w)×[0,h)`
and both the source and destination coordinates it pairs are in bounds. -/
def blitRegion (src : Surface) (sx sy : Int) (dest : Surface) (dx dy w h : Int) :
    List (Int × Int) :=
  rectPoints (dx + max 0 (max (-sx) (-dx)))
    (dy + max 0 (max (-sy) (-dy)))
    (dx + min w (min ((src.width : Int) - sx) ((dest.width : Int) - dx)))
    (dy + min h (min ((src.height : Int) - sy) ((dest.height : Int) - dy)))

/-- Modelled from the spec: `Blit(srcX, srcY, dest, destX, destY, w, h)`
(§4.1) copies the half-open source rectangle `[sx, sx+w) × [sy, sy+h)` of
`src` into `dest` at `(dx, dy)` as an opaque overwrite; both rectangles
are clipped against their surface bounds and only the intersection is
copied.  Reads come from the `src` argument as passed, so an overlapping
self-blit behaves like a copy through an independent buffer. -/
def Surface.Blit (src : Surface) (sx sy : Int) (dest : Surface) (dx dy w h : Int) :
    Surface :=
  (blitRegion src sx sy dest dx dy w h).foldl
    (fun d q => d.Plot q.1 q.2 (src.Get (sx + (q.1 - dx)) (sy + (q.2 - dy)))) dest

/-- Modelled from the spec: one channel of the standard over blend
`dst*(1 - a') + src*a'` (§4.1 BlitAlpha), computed exactly over `ℚ` and
floored back to an integer channel. -/
def mixChan (d s : Nat) (a : ℚ) : Nat :=
  (⌊(d : ℚ) * (1 - a) + (s : ℚ) * a⌋).toNat

/-- Modelled from the spec: the per-pixel over blend of `BlitAlpha`
(§4.1): every channel, the alpha channel included, is blended with
`a' = (src.A / 255) * alpha`. -/
def blendPixel (d s : Pixel) (alpha : ℚ) : Pixel :=
  { B := mixChan d.B s.B ((s.A : ℚ) / 255 * alpha)
    G := mixChan d.G s.G ((s.A : ℚ) / 255 * alpha)
    R := mixChan d.R s.R ((s.A : ℚ) / 255 * alpha)
    A := mixChan d.A s.A ((s.A : ℚ) / 255 * alpha) }

/-- Modelled from the spec: `BlitAlpha(..., alpha)` (§4.1): identical
region and clipping semantics to `Blit`, but each written pixel is the
over blend of the destination pixel with the source pixel, faded by the
global multiplier `alpha`. -/
def Surface.BlitAlpha (src : Surface) (sx sy : Int) (dest : Surface)
    (dx dy w h : Int) (alpha : ℚ) : Surface :=
  (blitRegion src sx sy dest dx dy w h).foldl
    (fun d q => d.Plot q.1 q.2
      (blendPixel (d.Get q.1 q.2) (src.Get (sx + (q.1 - dx)) (sy + (q.2 - dy))) alpha))
    dest

/-- Modelled from the spec: the per-source-pixel tint of `BlitTint`
(§4.1): RGB channels are scaled by `tint.RGB/255` and alpha by
`tint.A/255`, with integer floor division. -/
def tintPixel (t s : Pixel) : Pixel :=
  { B := s.B * t.B / 255
    G := s.G * t.G / 255
    R := s.R * t.R / 255
    A := s.A * t.A / 255 }

/-- Modelled from the spec: `BlitTint(..., tint)` (§4.1): identical region
and clipping semantics, each source pixel is tinted and then alpha-blended
onto the destination exactly as in `BlitAlpha`, with the tinted source
alpha as `a'` and no separate fade multiplier. -/
def Surface.BlitTint (src : Surface) (sx sy : Int) (dest : Surface)
    (dx dy w h : Int) (tint : Pixel) : Surface :=
  (blitRegion src sx sy dest dx dy w h).foldl
    (fun d q => d.Plot q.1 q.2
      (blendPixel (d.Get q.1 q.2)
        (tintPixel tint (src.Get (sx + (q.1 - dx)) (sy + (q.2 - dy)))) 1))
    dest

/-- Pointwise description of `Fill`: a pixel gets the colour exactly when
it lies in the requested rectangle and in bounds; every other pixel keeps
its value. -/
theorem Get_Fill (s : Surface) (x y w h : Int) (c : Pixel) (hs : s.Wf)
    (px py : Int) :
    (s.Fill x y w h c).Get px py =
      if x ≤ px ∧ px < x + w ∧ y ≤ py ∧ py < y + h ∧ s.inB px py then c
      else s.Get px py := by
  unfold Surface.Fill
  rw [Get_foldl_Plot (fun _ => c) _ s hs (px, py)]
  refine if_congr ?_ rfl rfl
  rw [mem_rectPoints]
  unfold Surface.inB
  dsimp only
  omega

/-- Pointwise description of `Blit`: writing offset `(i, j) = (px-dx, py-dy)`,
a destination pixel is overwritten by the corresponding source pixel exactly
when the offset is inside the requested rectangle and both coordinates are
in bounds on their surfaces. -/
theorem Get_Blit (src : Surface) (sx sy : Int) (dest : Surface)
    (dx dy w h : Int) (hd : dest.Wf) (px py : Int) :
    (src.Blit sx sy dest dx dy w h).Get px py =
      if 0 ≤ px - dx ∧ px - dx < w ∧ 0 ≤ py - dy ∧ py - dy < h ∧
          src.inB (sx + (px - dx)) (sy + (py - dy)) ∧ dest.inB px py then
        src.Get (sx + (px - dx)) (sy + (py - dy))
      else dest.Get px py := by
  unfold Surface.Blit blitRegion
  rw [Get_foldl_Plot (fun q => src.Get (sx + (q.1 - dx)) (sy + (q.2 - dy)))
    _ dest hd (px, py)]
  refine if_congr ?_ rfl rfl
  rw [mem_rectPoints]
  unfold Surface.inB
  dsimp only
  omega

/-- Pointwise description of `Line`: exactly the in-bounds Bresenham
points get the colour. -/
theorem Get_Line (s : Surface) (x0 y0 x1 y1 : Int) (c : Pixel) (hs : s.Wf)
    (px py : Int) :
    (s.Line x0 y0 x1 y1 c).Get px py =
      if (px, py) ∈ bresenhamPoints x0 y0 x1 y1 ∧ s.inB px py then c
      else s.Get px py := by
  unfold Surface.Line
  rw [Get_foldl_Plot (fun _ => c) _ s hs (px, py)]

/-- Blending with fade `alpha = 0` returns the destination pixel. -/
theorem blendPixel_zero (d s : Pixel) : blendPixel d s 0 = d := by
  unfold blendPixel mixChan
  simp

/-- Blending a fully opaque source pixel with fade `alpha = 1` returns the
source pixel. -/
theorem blendPixel_one_opaque (d s : Pixel) (hA : s.A = 255) :
    blendPixel d s 1 = s := by
  cases s with
  | mk B G R A =>
    simp only at hA
    subst hA
    unfold blendPixel mixChan
    norm_num
    decide

/-- Tinting by opaque white is the identity. -/
theorem tintPixel_white (s : Pixel) :
    tintPixel (RGBA 255 255 255 255) s = s := by
  unfold tintPixel RGBA
  cases s with
  | mk B G R A =>
    simp only [Pixel.mk.injEq]
    refine ⟨?_, ?_, ?_, ?_⟩ <;> omega

/-- Pointwise description of `BlitAlpha`: same region as `Blit`, written
pixels are the alpha blend of the old destination pixel with the source
pixel. -/
theorem Get_BlitAlpha (src : Surface) (sx sy : Int) (dest : Surface)
    (dx dy w h : Int) (alpha : ℚ) (hd : dest.Wf) (px py : Int) :
    (src.BlitAlpha sx sy dest dx dy w h alpha).Get px py =
      if 0 ≤ px - dx ∧ px - dx < w ∧ 0 ≤ py - dy ∧ py - dy < h ∧
          src.inB (sx + (px - dx)) (sy + (py - dy)) ∧ dest.inB px py then
        blendPixel (dest.Get px py)
          (src.Get (sx + (px - dx)) (sy + (py - dy))) alpha
      else dest.Get px py := by
  unfold Surface.BlitAlpha blitRegion
  rw [Get_foldl_PlotWith
    (fun q d => blendPixel d (src.Get (sx + (q.1 - dx)) (sy + (q.2 - dy))) alpha)
    _ dest hd (nodup_rectPoints _ _ _ _) (px, py)]
  refine if_congr ?_ rfl rfl
  rw [mem_rectPoints]
  unfold Surface.inB
  dsimp only
  omega

/-- The source-clipped copy rectangle of a blit, materialised as an
independent surface: entry `(u, v)` is the source pixel at offset
`(max 0 (-sx) + u, max 0 (-sy) + v)` of the requested rectangle. -/
def tempOf (src : Surface) (sx sy w h : Int) : Surface where
  width := (min w ((src.width : Int) - sx) - max 0 (-sx)).toNat
  height := (min h ((src.height : Int) - sy) - max 0 (-sy)).toNat
  pixels :=
    (List.range ((min h ((src.height : Int) - sy) - max 0 (-sy)).toNat *
        (min w ((src.width : Int) - sx) - max 0 (-sx)).toNat)).map fun k =>
      src.Get
        (sx + max 0 (-sx) +
          ((k % (min w ((src.width : Int) - sx) - max 0 (-sx)).toNat : Nat) : Int))
        (sy + max 0 (-sy) +
          ((k / (min w ((src.width : Int) - sx) - max 0 (-sx)).toNat : Nat) : Int))

theorem tempOf_Wf (src : Surface) (sx sy w h : Int) : (tempOf src sx sy w h).Wf := by
  unfold Surface.Wf tempOf
  rw [List.length_map, List.length_range, Nat.mul_comm]

theorem tempOf_Get (src : Surface) (sx sy w h : Int) (u v : Int)
    (hu0 : 0 ≤ u) (hu : u < ((tempOf src sx sy w h).width : Int))
    (hv0 : 0 ≤ v) (hv : v < ((tempOf src sx sy w h).height : Int)) :
    (tempOf src sx sy w h).Get u v =
      src.Get (sx + max 0 (-sx) + u) (sy + max 0 (-sy) + v) := by
  set tw := (min w ((src.width : Int) - sx) - max 0 (-sx)).toNat with htw
  set th := (min h ((src.height : Int) - sy) - max 0 (-sy)).toNat with hth
  have hb : (tempOf src sx sy w h).inB u v := ⟨hu0, hu, hv0, hv⟩
  unfold Surface.Get
  rw [if_pos hb]
  show (List.map _ (List.range (th * tw))).getD (v.toNat * tw + u.toNat) _ = _
  have hutw : u.toNat < tw := by
    have : ((tempOf src sx sy w h).width : Int) = (tw : Int) := rfl
    omega
  have hvth : v.toNat < th := by
    have : ((tempOf src sx sy w h).height : Int) = (th : Int) := rfl
    omega
  have hlt : v.toNat * tw + u.toNat < th * tw := by
    calc v.toNat * tw + u.toNat < v.toNat * tw + tw := by omega
      _ = (v.toNat + 1) * tw := by ring
      _ ≤ th * tw := Nat.mul_le_mul_right _ (by omega)
  rw [List.getD_eq_getElem?_getD, List.getElem?_map, List.getElem?_range hlt]
  have htwpos : 0 < tw := by omega
  have hmod : (v.toNat * tw + u.toNat) % tw = u.toNat := by
    rw [Nat.mul_comm, Nat.add_comm, Nat.add_mul_mod_self_left]
    exact Nat.mod_eq_of_lt hutw
  have hdiv : (v.toNat * tw + u.toNat) / tw = v.toNat := by
    rw [Nat.mul_comm, Nat.add_comm, Nat.add_mul_div_left _ _ htwpos]
    simp [Nat.div_eq_of_lt hutw]
  rw [Option.map_some', Option.getD_some, hmod, hdiv]
  have h1 : ((u.toNat : Nat) : Int) = u := by omega
  have h2 : ((v.toNat : Nat) : Int) = v := by omega
  rw [h1, h2]
  rfl

/-- Modelled from the spec: the reference semantics for an overlapping
self-blit (§4.1 Blit): first copy the source-clipped rectangle into an
independent temporary buffer, then blit that buffer into the destination
rectangle. -/
def blitViaTemp (src : Surface) (sx sy : Int) (dest : Surface) (dx dy w h : Int) :
    Surface :=
  (tempOf src sx sy w h).Blit 0 0 dest (dx + max 0 (-sx)) (dy + max 0 (-sy))
    ((tempOf src sx sy w h).width) ((tempOf src sx sy w h).height)

/-- Modelled from the spec: the error taxonomy of the core (§7): only
construction can fail, with AllocationFailure. -/
inductive TigoErr where
  | AllocationFailure
deriving DecidableEq, Repr

/-- Modelled from the spec: construction (§4.1): allocates a
zero-initialized buffer of the requested dimensions (zero sizes give a
valid empty surface); it fails, with AllocationFailure, exactly when the
requested dimensions cannot be allocated, i.e. when one is negative. -/
def create (w h : Int) : Except TigoErr Surface :=
  if 0 ≤ w ∧ 0 ≤ h then
    Except.ok ⟨w.toNat, h.toNat, List.replicate (w.toNat * h.toNat) ⟨0, 0, 0, 0⟩⟩
  else Except.error TigoErr.AllocationFailure

/-- The drawing and blit operations of the component, as one call type. -/
inductive DrawOp where
  | plotOp (x y : Int) (c : Pixel)
  | clearOp (c : Pixel)
  | fillOp (x y w h : Int) (c : Pixel)
  | rectOp (x y w h : Int) (c : Pixel)
  | lineOp (x0 y0 x1 y1 : Int) (c : Pixel)
  | blitOp (src : Surface) (sx sy dx dy w h : Int)
  | blitAlphaOp (src : Surface) (sx sy dx dy w h : Int) (alpha : ℚ)
  | blitTintOp (src : Surface) (sx sy dx dy w h : Int) (tint : Pixel)
  | getOp (x y : Int)

/-- Modelled from the spec: dispatching any drawing or blit call on a
surface, in the spec's error model (§7): the result is the updated surface
(and, for Get, the pixel read); no such call returns an error. -/
def runOp (s : Surface) : DrawOp → Except TigoErr (Surface × Pixel)
  | .plotOp x y c => Except.ok (s.Plot x y c, ⟨0, 0, 0, 0⟩)
  | .clearOp c => Except.ok (s.Clear c, ⟨0, 0, 0, 0⟩)
  | .fillOp x y w h c => Except.ok (s.Fill x y w h c, ⟨0, 0, 0, 0⟩)
  | .rectOp x y w h c => Except.ok (s.Rect x y w h c, ⟨0, 0, 0, 0⟩)
  | .lineOp x0 y0 x1 y1 c => Except.ok (s.Line x0 y0 x1 y1 c, ⟨0, 0, 0, 0⟩)
  | .blitOp src sx sy dx dy w h => Except.ok (src.Blit sx sy s dx dy w h, ⟨0, 0, 0, 0⟩)
  | .blitAlphaOp src sx sy dx dy w h alpha =>
      Except.ok (src.BlitAlpha sx sy s dx dy w h alpha, ⟨0, 0, 0, 0⟩)
  | .blitTintOp src sx sy dx dy w h tint =>
      Except.ok (src.BlitTint sx sy s dx dy w h tint, ⟨0, 0, 0, 0⟩)
  | .getOp x y => Except.ok (s, s.Get x y)

theorem rectPoints_nil (x0 y0 x1 y1 : Int) (h : x1 ≤ x0 ∨ y1 ≤ y0) :
    rectPoints x0 y0 x1 y1 = [] := by
  unfold rectPoints
  rcases h with h | h
  · have hx : (x1 - x0).toNat = 0 := by omega
    rw [hx]
    simp
  · have hy : (y1 - y0).toNat = 0 := by omega
    rw [hy]
    simp

/-- C1: Blit copies the half-open source rectangle `[sx, sx+w) x [sy, sy+h)`
into the destination at `(dx, dy)`; both rectangles are independently
clipped to their surface bounds and only their intersection is copied, so
a destination pixel inside the copied sub-rectangle is a byte-exact copy
of its source pixel and every destination pixel outside it is unchanged. -/
theorem claim_C1_Blit_clipped_copy (src : Surface) (sx sy : Int) (dest : Surface)
    (dx dy w h : Int) (hd : dest.Wf) (px py : Int) :
    (src.Blit sx sy dest dx dy w h).Get px py =
      if 0 ≤ px - dx ∧ px - dx < w ∧ 0 ≤ py - dy ∧ py - dy < h ∧
          src.inB (sx + (px - dx)) (sy + (py - dy)) ∧ dest.inB px py then
        src.Get (sx + (px - dx)) (sy + (py - dy))
      else dest.Get px py :=
  Get_Blit src sx sy dest dx dy w h hd px py

theorem claim_C1_witness :
    ((⟨1, 1, [⟨1, 2, 3, 4⟩]⟩ : Surface).Blit 0 0 ⟨1, 1, [⟨9, 9, 9, 9⟩]⟩ 0 0 1 1).Get 0 0 =
      (⟨1, 1, [⟨1, 2, 3, 4⟩]⟩ : Surface).Get 0 0 := by
  rw [claim_C1_Blit_clipped_copy ⟨1, 1, [⟨1, 2, 3, 4⟩]⟩ 0 0 ⟨1, 1, [⟨9, 9, 9, 9⟩]⟩
    0 0 1 1 (by decide) 0 0]
  decide

/-- C2: for every well-formed surface, in-range coordinate and pixel value,
plotting and then reading back returns exactly that pixel value, all four
channels included. -/
theorem claim_C2_Plot_Get_roundtrip (s : Surface) (hs : s.Wf) (x y : Int)
    (h : s.inB x y) (c : Pixel) : (s.Plot x y c).Get x y = c :=
  Get_Plot_same s x y c hs h

theorem claim_C2_witness :
    ((⟨2, 2, [⟨0, 0, 0, 0⟩, ⟨0, 0, 0, 0⟩, ⟨0, 0, 0, 0⟩, ⟨0, 0, 0, 0⟩]⟩ : Surface).Plot
        1 1 ⟨5, 6, 7, 8⟩).Get 1 1 = ⟨5, 6, 7, 8⟩ :=
  claim_C2_Plot_Get_roundtrip _ (by decide) 1 1 (by decide) _

/-- C3: plotting at an out-of-range coordinate is silently ignored: the
surface is returned unchanged, with no failure. -/
theorem claim_C3_Plot_out_of_range (s : Surface) (x y : Int) (c : Pixel)
    (h : x < 0 ∨ y < 0 ∨ (s.width : Int) ≤ x ∨ (s.height : Int) ≤ y) :
    s.Plot x y c = s := by
  have hn : ¬s.inB x y := by
    unfold Surface.inB
    intro hc
    omega
  unfold Surface.Plot
  rw [if_neg hn]

theorem claim_C3_witness :
    (⟨1, 1, [⟨1, 2, 3, 4⟩]⟩ : Surface).Plot 5 0 ⟨9, 9, 9, 9⟩ =
      (⟨1, 1, [⟨1, 2, 3, 4⟩]⟩ : Surface) :=
  claim_C3_Plot_out_of_range _ 5 0 _ (by decide)

/-- C4: Fill sets exactly the pixels in the intersection of the half-open
rectangle `[x, x+w) x [y, y+h)` with the surface bounds to the colour,
leaves every pixel outside that intersection unchanged, and is a no-op
when the rectangle lies entirely outside the surface. -/
theorem claim_C4_Fill_clipped (s : Surface) (hs : s.Wf) (x y w h : Int) (c : Pixel) :
    (∀ px py, (s.Fill x y w h c).Get px py =
        if x ≤ px ∧ px < x + w ∧ y ≤ py ∧ py < y + h ∧ s.inB px py then c
        else s.Get px py) ∧
      ((x + w ≤ 0 ∨ (s.width : Int) ≤ x ∨ y + h ≤ 0 ∨ (s.height : Int) ≤ y) →
        s.Fill x y w h c = s) := by
  constructor
  · intro px py
    exact Get_Fill s x y w h c hs px py
  · intro hout
    unfold Surface.Fill
    rw [rectPoints_nil]
    · rfl
    rcases hout with h1 | h1 | h1 | h1
    · exact Or.inl ((min_le_left _ _).trans (h1.trans (le_max_right x 0)))
    · exact Or.inl ((min_le_right _ _).trans (h1.trans (le_max_left x 0)))
    · exact Or.inr ((min_le_left _ _).trans (h1.trans (le_max_right y 0)))
    · exact Or.inr ((min_le_right _ _).trans (h1.trans (le_max_left y 0)))

theorem claim_C4_witness :
    ((⟨1, 1, [⟨7, 7, 7, 7⟩]⟩ : Surface).Fill 0 0 1 1 ⟨1, 2, 3, 4⟩).Get 0 0 =
      ⟨1, 2, 3, 4⟩ := by
  rw [(claim_C4_Fill_clipped ⟨1, 1, [⟨7, 7, 7, 7⟩]⟩ (by decide) 0 0 1 1 ⟨1, 2, 3, 4⟩).1 0 0]
  decide

/-- C5: Line sets to the colour exactly the in-bounds pixels that the
standard Bresenham rasterization of the segment visits (out-of-bounds
pixels are individually skipped, every other pixel is unchanged); the
visited set contains both endpoints, and for the segment from `(0,0)` to
`(3,0)` it is exactly `(0,0), (1,0), (2,0), (3,0)`. -/
theorem claim_C5_Line_bresenham (s : Surface) (hs : s.Wf) (x0 y0 x1 y1 : Int)
    (c : Pixel) :
    (∀ px py, (s.Line x0 y0 x1 y1 c).Get px py =
        if (px, py) ∈ bresenhamPoints x0 y0 x1 y1 ∧ s.inB px py then c
        else s.Get px py) ∧
      (x0, y0) ∈ bresenhamPoints x0 y0 x1 y1 ∧
      (x1, y1) ∈ bresenhamPoints x0 y0 x1 y1 ∧
      bresenhamPoints 0 0 3 0 = [(0, 0), (1, 0), (2, 0), (3, 0)] :=
  ⟨fun px py => Get_Line s x0 y0 x1 y1 c hs px py,
    start_mem_bresenhamPoints _ _ _ _, end_mem_bresenhamPoints _ _ _ _, by decide⟩

theorem claim_C5_witness :
    ((⟨4, 1, [⟨0, 0, 0, 0⟩, ⟨0, 0, 0, 0⟩, ⟨0, 0, 0, 0⟩, ⟨0, 0, 0, 0⟩]⟩ : Surface).Line
        0 0 3 0 ⟨1, 1, 1, 1⟩).Get 2 0 = ⟨1, 1, 1, 1⟩ := by
  rw [(claim_C5_Line_bresenham ⟨4, 1, [⟨0, 0, 0, 0⟩, ⟨0, 0, 0, 0⟩, ⟨0, 0, 0, 0⟩,
    ⟨0, 0, 0, 0⟩]⟩ (by decide) 0 0 3 0 ⟨1, 1, 1, 1⟩).1 2 0]
  decide

/-- C6: BlitAlpha with `alpha = 0` leaves every destination pixel
unchanged, and BlitAlpha with `alpha = 1` on a source whose pixels all
have `A = 255` writes exactly what Blit writes: the clipped destination
region becomes an exact copy of the source region. -/
theorem claim_C6_BlitAlpha_zero_one (src : Surface) (sx sy : Int) (dest : Surface)
    (dx dy w h : Int) (hd : dest.Wf) (px py : Int) :
    ((src.BlitAlpha sx sy dest dx dy w h 0).Get px py = dest.Get px py) ∧
      ((∀ u v, src.inB u v → (src.Get u v).A = 255) →
        (src.BlitAlpha sx sy dest dx dy w h 1).Get px py =
          (src.Blit sx sy dest dx dy w h).Get px py) := by
  constructor
  · rw [Get_BlitAlpha src sx sy dest dx dy w h 0 hd px py]
    split
    · rw [blendPixel_zero]
    · rfl
  · intro hop
    rw [Get_BlitAlpha src sx sy dest dx dy w h 1 hd px py,
      Get_Blit src sx sy dest dx dy w h hd px py]
    by_cases hc : 0 ≤ px - dx ∧ px - dx < w ∧ 0 ≤ py - dy ∧ py - dy < h ∧
        src.inB (sx + (px - dx)) (sy + (py - dy)) ∧ dest.inB px py
    · rw [if_pos hc, if_pos hc, blendPixel_one_opaque]
      exact hop _ _ hc.2.2.2.2.1
    · rw [if_neg hc, if_neg hc]

theorem claim_C6_witness :
    ((⟨1, 1, [⟨3, 4, 5, 255⟩]⟩ : Surface).BlitAlpha 0 0 ⟨1, 1, [⟨9, 8, 7, 6⟩]⟩
        0 0 1 1 1).Get 0 0 =
      ((⟨1, 1, [⟨3, 4, 5, 255⟩]⟩ : Surface).Blit 0 0 ⟨1, 1, [⟨9, 8, 7, 6⟩]⟩
        0 0 1 1).Get 0 0 := by
  apply (claim_C6_BlitAlpha_zero_one ⟨1, 1, [⟨3, 4, 5, 255⟩]⟩ 0 0
    ⟨1, 1, [⟨9, 8, 7, 6⟩]⟩ 0 0 1 1 (by decide) 0 0).2
  intro u v hv
  simp only [Surface.inB] at hv
  have hu : u = 0 ∧ v = 0 := by
    obtain ⟨h1, h2, h3, h4⟩ := hv
    constructor <;> omega
  obtain ⟨rfl, rfl⟩ := hu
  decide

/-- C7: BlitTint with tint `RGBA(255, 255, 255, 255)` produces exactly the
same destination as BlitAlpha with `alpha = 1` on the same arguments. -/
theorem claim_C7_BlitTint_white (src : Surface) (sx sy : Int) (dest : Surface)
    (dx dy w h : Int) :
    src.BlitTint sx sy dest dx dy w h (RGBA 255 255 255 255) =
      src.BlitAlpha sx sy dest dx dy w h 1 := by
  unfold Surface.BlitTint Surface.BlitAlpha
  congr 1
  funext d q
  rw [tintPixel_white]

/-- C9: no drawing or blit operation ever fails or returns an error; the
only fallible operation is construction, which fails, with
AllocationFailure, exactly when the requested dimensions cannot be
allocated. -/
theorem claim_C9_total_ops :
    (∀ (s : Surface) (op : DrawOp), ∃ r, runOp s op = Except.ok r) ∧
      (∀ w h : Int,
        create w h = Except.error TigoErr.AllocationFailure ↔ w < 0 ∨ h < 0) := by
  constructor
  · intro s op
    cases op <;> exact ⟨_, rfl⟩
  · intro w h
    unfold create
    split
    · next hc =>
      constructor
      · intro he
        exact Except.noConfusion he
      · intro hneg
        exact absurd hneg (by omega)
    · next hc =>
      constructor
      · intro _
        omega
      · intro _
        rfl

/-- C10: the RGB helper always returns a fully opaque pixel: it agrees
with RGBA at alpha 255, and its alpha channel is 255. -/
theorem claim_C10_RGB_opaque (r g b : Nat) :
    RGB r g b = RGBA r g b 255 ∧ (RGB r g b).A = 255 :=
  ⟨rfl, rfl⟩


/-- C8: blitting a surface into itself, with any (possibly overlapping)
source and destination rectangles, yields exactly the same pixel contents
as first copying the clipped source rectangle into an independent
temporary buffer and then blitting that buffer to the destination
rectangle: no source pixel is read after being overwritten. -/
theorem claim_C8_self_blit_temp (s : Surface) (hs : s.Wf)
    (sx sy dx dy w h px py : Int) :
    (s.Blit sx sy s dx dy w h).Get px py =
      (blitViaTemp s sx sy s dx dy w h).Get px py := by
  have hW : (((tempOf s sx sy w h).width : Nat) : Int) =
      ((min w ((s.width : Int) - sx) - max 0 (-sx)).toNat : Int) := rfl
  have hH : (((tempOf s sx sy w h).height : Nat) : Int) =
      ((min h ((s.height : Int) - sy) - max 0 (-sy)).toNat : Int) := rfl
  have hiff : (0 ≤ px - (dx + max 0 (-sx)) ∧
      px - (dx + max 0 (-sx)) < (((tempOf s sx sy w h).width : Nat) : Int) ∧
      0 ≤ py - (dy + max 0 (-sy)) ∧
      py - (dy + max 0 (-sy)) < (((tempOf s sx sy w h).height : Nat) : Int) ∧
      (tempOf s sx sy w h).inB (0 + (px - (dx + max 0 (-sx))))
        (0 + (py - (dy + max 0 (-sy)))) ∧ s.inB px py) ↔
      (0 ≤ px - dx ∧ px - dx < w ∧ 0 ≤ py - dy ∧ py - dy < h ∧
        s.inB (sx + (px - dx)) (sy + (py - dy)) ∧ s.inB px py) := by
    have f1 := le_max_left (0 : Int) (-sx)
    have f2 := le_max_right (0 : Int) (-sx)
    have f3 := max_choice (0 : Int) (-sx)
    have g1 := le_max_left (0 : Int) (-sy)
    have g2 := le_max_right (0 : Int) (-sy)
    have g3 := max_choice (0 : Int) (-sy)
    have m1 := min_le_left w ((s.width : Int) - sx)
    have m2 := min_le_right w ((s.width : Int) - sx)
    have m3 := min_choice w ((s.width : Int) - sx)
    have n1 := min_le_left h ((s.height : Int) - sy)
    have n2 := min_le_right h ((s.height : Int) - sy)
    have n3 := min_choice h ((s.height : Int) - sy)
    unfold Surface.inB
    rw [hW, hH]
    obtain ⟨i0, hgx⟩ : ∃ a, max (0 : Int) (-sx) = a := ⟨_, rfl⟩
    obtain ⟨j0, hgy⟩ : ∃ a, max (0 : Int) (-sy) = a := ⟨_, rfl⟩
    obtain ⟨iW, hgw⟩ : ∃ a, min w ((s.width : Int) - sx) = a := ⟨_, rfl⟩
    obtain ⟨jH, hgh⟩ : ∃ a, min h ((s.height : Int) - sy) = a := ⟨_, rfl⟩
    rw [hgx] at f1 f2 f3 ⊢
    rw [hgy] at g1 g2 g3 ⊢
    rw [hgw] at m1 m2 m3 ⊢
    rw [hgh] at n1 n2 n3 ⊢
    omega
  rw [Get_Blit s sx sy s dx dy w h hs px py]
  unfold blitViaTemp
  rw [Get_Blit (tempOf s sx sy w h) 0 0 s (dx + max 0 (-sx)) (dy + max 0 (-sy))
    (((tempOf s sx sy w h).width : Nat) : Int)
    (((tempOf s sx sy w h).height : Nat) : Int) hs px py]
  by_cases hc : 0 ≤ px - dx ∧ px - dx < w ∧ 0 ≤ py - dy ∧ py - dy < h ∧
      s.inB (sx + (px - dx)) (sy + (py - dy)) ∧ s.inB px py
  · rw [if_pos hc, if_pos (hiff.mpr hc)]
    obtain ⟨a1, a2, a3, a4, a5, a6⟩ := hiff.mpr hc
    have htg := tempOf_Get s sx sy w h (0 + (px - (dx + max 0 (-sx))))
      (0 + (py - (dy + max 0 (-sy))))
      (by linarith) (by linarith) (by linarith) (by linarith)
    rw [htg]
    have e1 : sx + max 0 (-sx) + (0 + (px - (dx + max 0 (-sx)))) = sx + (px - dx) := by
      ring
    have e2 : sy + max 0 (-sy) + (0 + (py - (dy + max 0 (-sy)))) = sy + (py - dy) := by
      ring
    rw [e1, e2]
  · rw [if_neg hc, if_neg (fun hx => hc (hiff.mp hx))]

theorem claim_C8_witness :
    ((⟨2, 1, [⟨1, 1, 1, 1⟩, ⟨2, 2, 2, 2⟩]⟩ : Surface).Blit 0 0
        ⟨2, 1, [⟨1, 1, 1, 1⟩, ⟨2, 2, 2, 2⟩]⟩ 1 0 2 1).Get 1 0 =
      (blitViaTemp ⟨2, 1, [⟨1, 1, 1, 1⟩, ⟨2, 2, 2, 2⟩]⟩ 0 0
        ⟨2, 1, [⟨1, 1, 1, 1⟩, ⟨2, 2, 2, 2⟩]⟩ 1 0 2 1).Get 1 0 :=
  claim_C8_self_blit_temp ⟨2, 1, [⟨1, 1, 1, 1⟩, ⟨2, 2, 2, 2⟩]⟩ (by decide)
    0 0 1 0 2 1 1 0

end Tigo
